import Mathlib

/-!
Verification of the streaming-chat core of `src/components/Chat.vue`
(ai-study-buddy-frontend).

Strings are embedded as `List Char`; every character class below mirrors one
of the regular expressions in the source.  The controller state (messages,
input, loading flag, SSE connection bookkeeping) is embedded as an explicit
record, and the SSE callbacks become functions on that record.
-/

namespace StudyBuddy

/-- JavaScript regex `\s` character class (ECMAScript WhiteSpace and
LineTerminator code points), used by the punctuation regexes and by
`String.prototype.trim`. -/
def jsWhitespace (c : Char) : Bool :=
  c = ' ' || c = '\t' || c = '\n' || c.val = 0x0b || c.val = 0x0c || c = '\r' ||
  c.val = 0xa0 || c.val = 0x1680 || (0x2000 ≤ c.val && c.val ≤ 0x200a) ||
  c.val = 0x2028 || c.val = 0x2029 || c.val = 0x202f || c.val = 0x205f ||
  c.val = 0x3000 || c.val = 0xfeff

/-- The Latin sentence punctuation listed in both regexes of `smartConcat`. -/
def latinPunct (c : Char) : Bool :=
  c = '.' || c = ',' || c = '!' || c = '?' || c = ';' || c = ':'

/-- The CJK sentence punctuation listed in both regexes of `smartConcat`. -/
def cjkPunct (c : Char) : Bool :=
  c = '，' || c = '。' || c = '！' || c = '？' || c = '；' || c = '：'

/-- Character class of `/^[\s\.,!?;:，。！？；：]/` in `smartConcat`
(whitespace or a listed sentence-punctuation character). -/
def startsWithSeparator (c : Char) : Bool :=
  jsWhitespace c || latinPunct c || cjkPunct c

/-- Character class of `/[\s\.,!?;:，。！？；：\-_]/` in `smartConcat`
(same set plus hyphen and underscore). -/
def isSpaceOrPunct (c : Char) : Bool :=
  startsWithSeparator c || c = '-' || c = '_'

/-- Character class of `/[一-龥]/` (CJK ideograph test). -/
def isChineseChar (c : Char) : Bool :=
  0x4e00 ≤ c.val && c.val ≤ 0x9fa5

/-- Character class of `/[a-zA-Z0-9]/` (Latin letter or digit test). -/
def isEnglishChar (c : Char) : Bool :=
  ('a' ≤ c && c ≤ 'z') || ('A' ≤ c && c ≤ 'Z') || ('0' ≤ c && c ≤ '9')

/-- `smartConcat(currentContent, newChunk)` from `Chat.vue` (lines 229-279):
merges an accumulated string with a freshly arrived SSE chunk, inserting a
single space exactly when both boundary characters are Latin-alphanumeric or
one is a CJK ideograph and the other Latin-alphanumeric. -/
def smartConcat (currentContent newChunk : List Char) : List Char :=
  if currentContent.isEmpty then newChunk
  else if newChunk.isEmpty then currentContent
  else
    let lastChar := currentContent.getLastD ' '
    let firstChar := newChunk.headD ' '
    if startsWithSeparator firstChar then currentContent ++ newChunk
    else if isSpaceOrPunct lastChar || isSpaceOrPunct firstChar then
      currentContent ++ newChunk
    else if isChineseChar lastChar && isChineseChar firstChar then
      currentContent ++ newChunk
    else if isEnglishChar lastChar && isEnglishChar firstChar then
      currentContent ++ ' ' :: newChunk
    else if (isChineseChar lastChar && isEnglishChar firstChar) ||
            (isEnglishChar lastChar && isChineseChar firstChar) then
      currentContent ++ ' ' :: newChunk
    else currentContent ++ newChunk

/-- Modelled from the spec: the reference case analysis of §4.1 ChunkMerger as
restated in claim C1 — empty-side identities; direct concatenation when the
chunk starts with a separator or either boundary character is
whitespace-or-punctuation; direct concatenation for CJK/CJK; a single space
for Latin/Latin and mixed CJK-Latin boundaries; direct concatenation
otherwise. -/
def specMerge (accumulated chunk : List Char) : List Char :=
  if accumulated.isEmpty then chunk
  else if chunk.isEmpty then accumulated
  else
    let l := accumulated.getLastD ' '
    let f := chunk.headD ' '
    if startsWithSeparator f || isSpaceOrPunct l || isSpaceOrPunct f then
      accumulated ++ chunk
    else if isChineseChar l && isChineseChar f then accumulated ++ chunk
    else if (isEnglishChar l && isEnglishChar f) ||
            (isChineseChar l && isEnglishChar f) ||
            (isEnglishChar l && isChineseChar f) then
      accumulated ++ ' ' :: chunk
    else accumulated ++ chunk

/-- Message roles (`type Role = 'user' | 'assistant'`). -/
inductive Role where
  | user
  | assistant
deriving DecidableEq

/-- `interface ChatMessage` from `Chat.vue`. -/
structure ChatMessage where
  role : Role
  content : List Char
deriving DecidableEq

/-- One `EventSource` object created by `openStream`: its identity, whether it
has been `close()`d, and the `messageIndex` captured by its callbacks.  The
index is an `Int` because the JavaScript handler guards `messageIndex >= 0`. -/
structure EventSource where
  id : Nat
  isOpen : Bool
  messageIndex : Int
deriving DecidableEq

/-- The module-level reactive state of `Chat.vue`: the message list, the input
box, the `loading` flag, the id of the `EventSource` currently held in
`evtSource` (if any), the list of every `EventSource` created so far, a
fresh-id counter, and the session id `memoryId`. -/
structure ChatState where
  messages : List ChatMessage
  inputText : List Char
  loading : Bool
  evtSource : Option Nat
  conns : List EventSource
  nextId : Nat
  memoryId : Nat
deriving DecidableEq

/-- The end-of-stream sentinel payload `[DONE]`. -/
def donePayload : List Char := "[DONE]".toList

/-- The heartbeat payload `ping`. -/
def pingPayload : List Char := "ping".toList

/-- The heartbeat payload `keepalive`. -/
def keepalivePayload : List Char := "keepalive".toList

/-- `!e.data || e.data === 'ping' || e.data === 'keepalive'` from the
`onmessage` handler. -/
def isHeartbeatOrEmpty (d : List Char) : Bool :=
  d.isEmpty || d = pingPayload || d = keepalivePayload

/-- Marks the `EventSource` with the given id closed (`es.close()`). -/
def closeConn (conns : List EventSource) (i : Nat) : List EventSource :=
  conns.map fun c => if c.id = i then { c with isOpen := false } else c

/-- `closeStream()` from `Chat.vue` (lines 444-452): closes the connection in
`evtSource` if there is one, nulls `evtSource`, and resets `loading`. -/
def closeStream (s : ChatState) : ChatState :=
  match s.evtSource with
  | some i =>
      { s with conns := closeConn s.conns i, evtSource := none, loading := false }
  | none => { s with loading := false }

/-- `openStream(text, messageIndex)` from `Chat.vue` (lines 197-209): sets
`loading` to true, then calls `closeStream()` (which resets it to false and
closes any previous connection), then creates a fresh `EventSource` whose
callbacks capture `messageIndex`, storing it in `evtSource`.  The request
text only feeds the URL, so it does not appear in the state. -/
def openStream (s : ChatState) (messageIndex : Int) : ChatState :=
  let s1 := closeStream { s with loading := true }
  { s1 with
    conns := s1.conns ++ [⟨s1.nextId, true, messageIndex⟩],
    evtSource := some s1.nextId,
    nextId := s1.nextId + 1 }

/-- Left-trim by the JavaScript `\s` class. -/
def trimLeftJS : List Char → List Char
  | [] => []
  | c :: cs => if jsWhitespace c then trimLeftJS cs else c :: cs

/-- `String.prototype.trim` (both ends). -/
def jsTrim (s : List Char) : List Char :=
  (trimLeftJS (trimLeftJS s).reverse).reverse

/-- `onSend()` from `Chat.vue` (lines 172-190): no-op when the trimmed input
is empty or `loading` is set; otherwise appends the user message, clears the
input, appends the empty assistant placeholder, and opens the stream on the
placeholder's index. -/
def onSend (s : ChatState) : ChatState :=
  let text := jsTrim s.inputText
  if text.isEmpty || s.loading then s
  else
    let s1 := { s with
      messages := s.messages ++ [⟨Role.user, text⟩] ++ [⟨Role.assistant, []⟩],
      inputText := [] }
    let assistantMsgIndex : Int := (s1.messages.length : Int) - 1
    openStream s1 assistantMsgIndex

/-- Replaces the content of `msgs[i]` by its `smartConcat` with `chunk`
(`messages[messageIndex].content = smartConcat(...)`). -/
def updateContent (msgs : List ChatMessage) (i : Nat) (chunk : List Char) :
    List ChatMessage :=
  match msgs[i]? with
  | some m => msgs.set i ⟨m.role, smartConcat m.content chunk⟩
  | none => msgs

/-- The `es.onmessage` handler body (lines 285-313), for an `EventSource`
whose callbacks captured `c.messageIndex`: tears the stream down on the
`[DONE]` sentinel, ignores heartbeats and empty payloads, and otherwise
merges the chunk into the placeholder behind an explicit bounds check. -/
def onMessage (s : ChatState) (c : EventSource) (data : List Char) : ChatState :=
  if data = donePayload then closeStream s
  else if isHeartbeatOrEmpty data then s
  else if 0 ≤ c.messageIndex ∧ c.messageIndex < (s.messages.length : Int) then
    { s with messages := updateContent s.messages c.messageIndex.toNat data }
  else s

/-- Looks up a created `EventSource` by id. -/
def findConn (conns : List EventSource) (i : Nat) : Option EventSource :=
  conns.find? fun c => c.id = i

/-- An external stream event addressed to one `EventSource`: a data event
carrying a payload, or a transport error event. -/
inductive Ev where
  | data (cid : Nat) (payload : List Char)
  | error (cid : Nat)
deriving DecidableEq

/-- Delivery of one event.  The browser only fires callbacks of an
`EventSource` that has not been closed; the `es.onerror` handler (lines
348-383) only logs diagnostics before calling `closeStream()`. -/
def step (s : ChatState) : Ev → ChatState
  | Ev.data cid payload =>
    match findConn s.conns cid with
    | some c => if c.isOpen then onMessage s c payload else s
    | none => s
  | Ev.error cid =>
    match findConn s.conns cid with
    | some c => if c.isOpen then closeStream s else s
    | none => s

/-- Delivery of a finite sequence of events in order. -/
def run (s : ChatState) (evs : List Ev) : ChatState := evs.foldl step s

/-- A `chat_sessions` index entry (`{id, lastMessage, timestamp}`). -/
structure SessionEntry where
  id : Nat
  lastMessage : List Char
  timestamp : Nat
deriving DecidableEq

/-- A record stored under the `chat_<id>` key: either a well-formed
serialization of `{messages, memoryId, timestamp}` (JSON round-trips these
values exactly), or a malformed string whose parse throws. -/
inductive StoredChat where
  | valid (messages : List ChatMessage) (memoryId : Nat) (timestamp : Nat)
  | malformed
deriving DecidableEq

/-- The relevant slice of `localStorage`: the per-session `chat_<id>` keys and
the `chat_sessions` index key (`none` when the key is absent, in which case
the code parses the default `'[]'`). -/
structure Store where
  chat : Nat → Option StoredChat
  sessions : Option (List SessionEntry)

/-- `localStorage.setItem` on a `chat_<k>` key. -/
def setChat (f : Nat → Option StoredChat) (k : Nat) (v : StoredChat) :
    Nat → Option StoredChat :=
  fun j => if j = k then some v else f j

/-- `sessionList.find(s => s.id === id)` then in-place update, else `push`:
replaces the first entry with the given id, or appends a new entry at the
end. -/
def upsertSession (mid : Nat) (preview : List Char) (now : Nat) :
    List SessionEntry → List SessionEntry
  | [] => [⟨mid, preview, now⟩]
  | e :: rest =>
    if e.id = mid then ⟨mid, preview, now⟩ :: rest
    else e :: upsertSession mid preview now rest

/-- `saveMessages()` from `Chat.vue` (lines 389-414), success path: writes
`{messages, memoryId, timestamp}` under `chat_<memoryId>` and upserts the
`chat_sessions` entry with the last message as preview. -/
def saveMessages (s : ChatState) (store : Store) (now : Nat) : Store :=
  let preview := ((s.messages.getLast?).map ChatMessage.content).getD []
  { chat := setChat store.chat s.memoryId
      (StoredChat.valid s.messages s.memoryId now),
    sessions := some (upsertSession s.memoryId preview now
      (store.sessions.getD [])) }

/-- `loadMessages(sessionId)` from `Chat.vue` (lines 419-438): absent key →
`false`; malformed record → parse throws, caught, `false`; valid record →
replace the message list and `memoryId`, return `true`. -/
def loadMessages (s : ChatState) (store : Store) (sessionId : Nat) :
    ChatState × Bool :=
  match store.chat sessionId with
  | some (StoredChat.valid msgs mid _) =>
      ({ s with messages := msgs, memoryId := mid }, true)
  | some StoredChat.malformed => (s, false)
  | none => (s, false)

/-- Insertion step for `sessionList.sort((a, b) => b.timestamp - a.timestamp)`:
places an entry after every entry with a timestamp at least as large. -/
def insertByTimestampDesc (e : SessionEntry) :
    List SessionEntry → List SessionEntry
  | [] => [e]
  | x :: xs =>
    if e.timestamp ≤ x.timestamp then x :: insertByTimestampDesc e xs
    else e :: x :: xs

/-- The recency sort of the session index (descending timestamps). -/
def sortSessions (l : List SessionEntry) : List SessionEntry :=
  l.foldr insertByTimestampDesc []

/-- Descending-by-timestamp ordering of an entry list. -/
def SortedDesc (l : List SessionEntry) : Prop :=
  l.Chain' fun a b => b.timestamp ≤ a.timestamp

/-- The default welcome assistant message pushed when no session loads. -/
def welcomeMessage : ChatMessage :=
  ⟨Role.assistant, "你好，我是 AI 编程小助手。有什么可以帮你？".toList⟩

/-- The `onMounted` hook (lines 111-125): with a non-empty `chat_sessions`
index, sort by timestamp descending and load the first entry's session,
falling back to the welcome message when the load fails; with an empty or
absent index, push the welcome message. -/
def onMounted (s : ChatState) (store : Store) : ChatState :=
  let sessionList := store.sessions.getD []
  if sessionList.isEmpty then
    { s with messages := s.messages ++ [welcomeMessage] }
  else
    match (sortSessions sessionList).head? with
    | some e =>
      let r := loadMessages s store e.id
      if r.2 then r.1
      else { r.1 with messages := r.1.messages ++ [welcomeMessage] }
    | none => { s with messages := s.messages ++ [welcomeMessage] }

/-- The `onUnmounted` hook (lines 130-138): close the stream, then save when
the message list is non-empty. -/
def onUnmounted (s : ChatState) (store : Store) (now : Nat) :
    ChatState × Store :=
  let s1 := closeStream s
  (s1, if s1.messages.isEmpty then store else saveMessages s1 store now)

/-- The controller state right after module initialization: empty message
list and input, `loading` false, no connection, session id freshly
generated. -/
def initState (mid : Nat) : ChatState :=
  { messages := [], inputText := [], loading := false, evtSource := none,
    conns := [], nextId := 0, memoryId := mid }

/-- States of the controller reachable from initialization through the
operations of `Chat.vue`: mounting, typing, sending, stream events, stream
close, and unmounting. -/
inductive Reachable : ChatState → Prop where
  | init (mid : Nat) : Reachable (initState mid)
  | mounted (s : ChatState) (store : Store) (h : Reachable s) :
      Reachable (onMounted s store)
  | input (s : ChatState) (h : Reachable s) (t : List Char) :
      Reachable { s with inputText := t }
  | send (s : ChatState) (h : Reachable s) : Reachable (onSend s)
  | ev (s : ChatState) (h : Reachable s) (e : Ev) : Reachable (step s e)
  | close (s : ChatState) (h : Reachable s) : Reachable (closeStream s)
  | unmount (s : ChatState) (store : Store) (now : Nat) (h : Reachable s) :
      Reachable (onUnmounted s store now).1

/-- Connection-bookkeeping invariant of the controller: every open
`EventSource` is the one referenced by `evtSource`, created ids are distinct,
and all ids are below the fresh-id counter. -/
def ConnInv (s : ChatState) : Prop :=
  (∀ c ∈ s.conns, c.isOpen = true → s.evtSource = some c.id) ∧
  (s.conns.map EventSource.id).Nodup ∧
  (∀ c ∈ s.conns, c.id < s.nextId)

/-- The content of the message at index `i` (empty when out of range). -/
def contentAt (s : ChatState) (i : Nat) : List Char :=
  (s.messages[i]?.map ChatMessage.content).getD []

/-- A concrete mid-stream state: user message sent, empty assistant
placeholder at index 1, one open connection with id 0. -/
def sampleOpenState : ChatState :=
  { messages := [⟨Role.user, "hi".toList⟩, ⟨Role.assistant, []⟩],
    inputText := [], loading := true, evtSource := some 0,
    conns := [⟨0, true, 1⟩], nextId := 1, memoryId := 7 }

/-- A concrete idle state with text typed into the input box. -/
def sampleIdleState : ChatState :=
  { messages := [welcomeMessage], inputText := "hi".toList, loading := false,
    evtSource := none, conns := [], nextId := 0, memoryId := 42 }

/-- A concrete state whose open connection captured an out-of-bounds
placeholder index. -/
def sampleOobState : ChatState :=
  { messages := [⟨Role.user, "hi".toList⟩, ⟨Role.assistant, []⟩],
    inputText := [], loading := true, evtSource := some 0,
    conns := [⟨0, true, 5⟩], nextId := 1, memoryId := 7 }

/-- A concrete store with two indexed sessions; the one timestamped 20 has a
valid record under its `chat_5` key. -/
def sampleStore : Store :=
  { chat := setChat (fun _ => none) 5
      (StoredChat.valid [⟨Role.user, "a".toList⟩] 5 20),
    sessions := some [⟨9, [], 3⟩, ⟨5, "a".toList, 20⟩] }

/-- C1: `smartConcat` coincides with the reference case analysis of spec §4.1
on every pair of strings. -/
theorem smartConcat_eq_specMerge (a c : List Char) :
    smartConcat a c = specMerge a c := by
  unfold smartConcat specMerge
  by_cases h1 : a.isEmpty = true
  · simp [h1]
  by_cases h2 : c.isEmpty = true
  · simp [h1, h2]
  simp only [h1, h2, Bool.false_eq_true, if_false]
  by_cases p1 : startsWithSeparator (c.head?.getD ' ') = true <;>
  by_cases p2 : isSpaceOrPunct (a.getLast?.getD ' ') = true <;>
  by_cases p3 : isSpaceOrPunct (c.head?.getD ' ') = true <;>
  by_cases q1 : isChineseChar (a.getLast?.getD ' ') = true <;>
  by_cases q2 : isChineseChar (c.head?.getD ' ') = true <;>
  by_cases r1 : isEnglishChar (a.getLast?.getD ' ') = true <;>
  by_cases r2 : isEnglishChar (c.head?.getD ' ') = true <;>
  simp [p1, p2, p3, q1, q2, r1, r2]

theorem findConn_mem {conns : List EventSource} {i : Nat} {c : EventSource}
    (h : findConn conns i = some c) : c ∈ conns :=
  List.mem_of_find?_eq_some h

theorem findConn_id {conns : List EventSource} {i : Nat} {c : EventSource}
    (h : findConn conns i = some c) : c.id = i := by
  have := List.find?_some h
  simpa using this

theorem closeConn_map_id (conns : List EventSource) (i : Nat) :
    (closeConn conns i).map EventSource.id = conns.map EventSource.id := by
  simp only [closeConn, List.map_map]
  apply List.map_congr_left
  intro c _
  by_cases h : c.id = i <;> simp [h]

theorem mem_closeConn {c : EventSource} {conns : List EventSource} {i : Nat}
    (h : c ∈ closeConn conns i) :
    ∃ c0 ∈ conns, c = if c0.id = i then { c0 with isOpen := false } else c0 := by
  rcases List.mem_map.mp h with ⟨c0, hc0, rfl⟩
  exact ⟨c0, hc0, rfl⟩

theorem closeStream_messages (s : ChatState) :
    (closeStream s).messages = s.messages := by
  cases hs : s.evtSource <;> simp [closeStream, hs]

theorem closeStream_nextId (s : ChatState) :
    (closeStream s).nextId = s.nextId := by
  cases hs : s.evtSource <;> simp [closeStream, hs]

theorem allClosed_closeStream (s : ChatState)
    (h : ∀ c ∈ s.conns, c.isOpen = true → s.evtSource = some c.id) :
    ∀ c ∈ (closeStream s).conns, c.isOpen = false := by
  intro c hc
  cases hs : s.evtSource with
  | none =>
    simp only [closeStream, hs] at hc
    cases hco : c.isOpen
    · rfl
    · exact absurd (h c hc hco) (by simp [hs])
  | some i =>
    simp only [closeStream, hs] at hc
    rcases mem_closeConn hc with ⟨c0, hc0, rfl⟩
    by_cases hid : c0.id = i
    · simp [hid]
    · simp only [hid, if_false]
      cases hco : c0.isOpen
      · rfl
      · have := h c0 hc0 hco
        rw [hs] at this
        exact absurd (Option.some_inj.mp this).symm hid

theorem connInv_closeStream (s : ChatState) (h : ConnInv s) :
    ConnInv (closeStream s) := by
  obtain ⟨h1, h2, h3⟩ := h
  refine ⟨?_, ?_, ?_⟩
  · intro c hc hopen
    rw [allClosed_closeStream s h1 c hc] at hopen
    exact absurd hopen (by simp)
  · cases hs : s.evtSource <;>
      simp [closeStream, hs, closeConn_map_id, h2]
  · intro c hc
    cases hs : s.evtSource with
    | none =>
      simp only [closeStream, hs] at hc ⊢
      exact h3 c hc
    | some i =>
      simp only [closeStream, hs] at hc ⊢
      rcases mem_closeConn hc with ⟨c0, hc0, rfl⟩
      by_cases hid : c0.id = i
      · rw [if_pos hid]
        exact h3 c0 hc0
      · rw [if_neg hid]
        exact h3 c0 hc0

theorem connInv_appendFresh (s1 : ChatState)
    (hclosed : ∀ c ∈ s1.conns, c.isOpen = false)
    (h2 : (s1.conns.map EventSource.id).Nodup)
    (h3 : ∀ c ∈ s1.conns, c.id < s1.nextId) (idx : Int) :
    ConnInv { s1 with conns := s1.conns ++ [⟨s1.nextId, true, idx⟩],
                      evtSource := some s1.nextId, nextId := s1.nextId + 1 } := by
  refine ⟨?_, ?_, ?_⟩
  · intro c hc hopen
    rcases List.mem_append.mp hc with hc | hc
    · rw [hclosed c hc] at hopen
      exact absurd hopen (by simp)
    · simp only [List.mem_singleton] at hc
      subst hc
      rfl
  · simp only [List.map_append]
    rw [List.nodup_append]
    refine ⟨h2, List.nodup_singleton _, ?_⟩
    intro a ha hb
    simp only [List.map_cons, List.map_nil, List.mem_singleton] at hb
    subst hb
    rcases List.mem_map.mp ha with ⟨c0, hc0, hida⟩
    exact absurd hida (Nat.ne_of_lt (h3 c0 hc0))
  · intro c hc
    rcases List.mem_append.mp hc with hc | hc
    · exact Nat.lt_succ_of_lt (h3 c hc)
    · simp only [List.mem_singleton] at hc
      subst hc
      exact Nat.lt_succ_self _

theorem connInv_openStream (s : ChatState) (h : ConnInv s) (idx : Int) :
    ConnInv (openStream s idx) := by
  have h' : ConnInv { s with loading := true } := h
  have hcs := connInv_closeStream { s with loading := true } h'
  have hclosed := allClosed_closeStream { s with loading := true } h'.1
  exact connInv_appendFresh (closeStream { s with loading := true })
    hclosed hcs.2.1 hcs.2.2 idx

theorem connInv_onMessage (s : ChatState) (c : EventSource) (d : List Char)
    (h : ConnInv s) : ConnInv (onMessage s c d) := by
  unfold onMessage
  split
  · exact connInv_closeStream s h
  split
  · exact h
  split
  · exact h
  · exact h

theorem connInv_step (s : ChatState) (e : Ev) (h : ConnInv s) :
    ConnInv (step s e) := by
  cases e with
  | data cid payload =>
    cases hf : findConn s.conns cid with
    | none => simpa only [step, hf] using h
    | some c =>
      by_cases hc : c.isOpen = true <;> simp only [step, hf, hc, if_true, if_false]
      · exact connInv_onMessage s c payload h
      · simpa using h
  | error cid =>
    cases hf : findConn s.conns cid with
    | none => simpa only [step, hf] using h
    | some c =>
      by_cases hc : c.isOpen = true <;> simp only [step, hf, hc, if_true, if_false]
      · exact connInv_closeStream s h
      · simpa using h

theorem connInv_onSend (s : ChatState) (h : ConnInv s) : ConnInv (onSend s) := by
  unfold onSend
  dsimp only
  by_cases hc : ((jsTrim s.inputText).isEmpty || s.loading) = true
  · rw [if_pos hc]
    exact h
  · rw [if_neg hc]
    exact connInv_openStream
      { s with
        messages := s.messages ++ [⟨Role.user, jsTrim s.inputText⟩] ++
          [⟨Role.assistant, []⟩],
        inputText := [] } h _

theorem connInv_loadMessages (s : ChatState) (store : Store) (sid : Nat)
    (h : ConnInv s) : ConnInv (loadMessages s store sid).1 := by
  unfold loadMessages
  cases store.chat sid with
  | none => exact h
  | some r =>
    cases r with
    | valid m mid t => exact h
    | malformed => exact h

theorem connInv_onMounted (s : ChatState) (store : Store) (h : ConnInv s) :
    ConnInv (onMounted s store) := by
  unfold onMounted
  dsimp only
  by_cases he : (store.sessions.getD []).isEmpty = true
  · rw [if_pos he]
    exact h
  · rw [if_neg he]
    cases hh : (sortSessions (store.sessions.getD [])).head? with
    | none => exact h
    | some e =>
      dsimp only
      by_cases hr : (loadMessages s store e.id).2 = true
      · rw [if_pos hr]
        exact connInv_loadMessages s store _ h
      · rw [if_neg hr]
        exact connInv_loadMessages s store _ h

theorem reachable_connInv (s : ChatState) (h : Reachable s) : ConnInv s := by
  induction h with
  | init mid => exact ⟨by simp [initState], by simp [initState], by simp [initState]⟩
  | mounted s store _ ih => exact connInv_onMounted s store ih
  | input s _ t ih => exact ih
  | send s _ ih => exact connInv_onSend s ih
  | ev s _ e ih => exact connInv_step s e ih
  | close s _ ih => exact connInv_closeStream s ih
  | unmount s store now _ ih => exact connInv_closeStream s ih

theorem step_of_allClosed (s : ChatState)
    (h : ∀ c ∈ s.conns, c.isOpen = false) (e : Ev) : step s e = s := by
  cases e with
  | data cid payload =>
    cases hf : findConn s.conns cid with
    | none => simp [step, hf]
    | some c => simp [step, hf, h c (findConn_mem hf)]
  | error cid =>
    cases hf : findConn s.conns cid with
    | none => simp [step, hf]
    | some c => simp [step, hf, h c (findConn_mem hf)]

theorem run_cons (s : ChatState) (e : Ev) (evs : List Ev) :
    run s (e :: evs) = run (step s e) evs := rfl

theorem run_of_allClosed (s : ChatState)
    (h : ∀ c ∈ s.conns, c.isOpen = false) (evs : List Ev) : run s evs = s := by
  induction evs with
  | nil => rfl
  | cons e rest ih =>
    rw [run_cons, step_of_allClosed s h e]
    exact ih

/-- C3: processing a `[DONE]` data event on the open connection tears the
connection down, and delivering any further sequence of events afterwards
leaves the state — in particular every message's content — unchanged. -/
theorem done_halts_stream (s : ChatState) (hinv : ConnInv s) (cid : Nat)
    (c : EventSource) (hfind : findConn s.conns cid = some c)
    (hopen : c.isOpen = true) (evs : List Ev) :
    (step s (Ev.data cid donePayload)).evtSource = none ∧
    run (step s (Ev.data cid donePayload)) evs =
      step s (Ev.data cid donePayload) := by
  have hstep : step s (Ev.data cid donePayload) = closeStream s := by
    simp [step, hfind, hopen, onMessage]
  rw [hstep]
  refine ⟨?_, ?_⟩
  · cases hs : s.evtSource <;> simp [closeStream, hs]
  · exact run_of_allClosed _ (allClosed_closeStream s hinv.1) evs

/-- Witness for C3 at a concrete mid-stream state and a concrete late event. -/
theorem done_halts_stream_witness :
    (step sampleOpenState (Ev.data 0 donePayload)).evtSource = none ∧
    run (step sampleOpenState (Ev.data 0 donePayload))
        [Ev.data 0 "x!".toList, Ev.error 0] =
      step sampleOpenState (Ev.data 0 donePayload) :=
  done_halts_stream sampleOpenState
    (by unfold ConnInv; decide) 0 ⟨0, true, 1⟩ (by decide) (by decide)
    [Ev.data 0 "x!".toList, Ev.error 0]

theorem updateContent_length (msgs : List ChatMessage) (i : Nat)
    (chunk : List Char) : (updateContent msgs i chunk).length = msgs.length := by
  unfold updateContent
  cases h : msgs[i]? with
  | none => rfl
  | some m => simp

theorem updateContent_getElem? (msgs : List ChatMessage) (i : Nat)
    (chunk : List Char) (m : ChatMessage) (h : msgs[i]? = some m) :
    (updateContent msgs i chunk)[i]? =
      some ⟨m.role, smartConcat m.content chunk⟩ := by
  have hlt : i < msgs.length := by
    rcases List.getElem?_eq_some_iff.mp h with ⟨hlt, _⟩
    exact hlt
  unfold updateContent
  rw [h]
  simp [List.getElem?_set_self hlt]

theorem run_data_fold (evs : List (List Char)) (s : ChatState) (cid i : Nat)
    (c : EventSource) (hfind : findConn s.conns cid = some c)
    (hopen : c.isOpen = true) (hmi : c.messageIndex = (i : Int))
    (hi : i < s.messages.length) (hnd : donePayload ∉ evs) :
    (run s (evs.map (Ev.data cid))).messages.length = s.messages.length ∧
    contentAt (run s (evs.map (Ev.data cid))) i =
      (evs.filter fun d => !isHeartbeatOrEmpty d).foldl smartConcat
        (contentAt s i) := by
  induction evs generalizing s with
  | nil => exact ⟨rfl, rfl⟩
  | cons e rest ih =>
    have hne : e ≠ donePayload := fun hcon => hnd (by simp [hcon])
    have hnd' : donePayload ∉ rest := fun hcon => hnd (List.mem_cons_of_mem _ hcon)
    have hstep : step s (Ev.data cid e) = onMessage s c e := by
      simp [step, hfind, hopen]
    rw [List.map_cons, run_cons, hstep]
    by_cases hh : isHeartbeatOrEmpty e = true
    · have hmsg : onMessage s c e = s := by
        simp [onMessage, hne, hh]
      rw [hmsg, List.filter_cons_of_neg (by simp [hh])]
      exact ih s hfind hi hnd'
    · have hguard : 0 ≤ c.messageIndex ∧
          c.messageIndex < (s.messages.length : Int) := by
        rw [hmi]
        exact ⟨Int.ofNat_nonneg i, Int.ofNat_lt.mpr hi⟩
      have hmsg : onMessage s c e =
          { s with messages := updateContent s.messages i e } := by
        rw [onMessage, if_neg (by simp [hne]), if_neg (by simp [hh]),
          if_pos hguard, hmi]
        simp
      rw [hmsg]
      have hm : s.messages[i]? = some s.messages[i] :=
        List.getElem?_eq_getElem hi
      have hi' : i < (updateContent s.messages i e).length := by
        rw [updateContent_length]
        exact hi
      have ihr := ih { s with messages := updateContent s.messages i e }
        hfind hi' hnd'
      rw [List.filter_cons_of_pos (by simp [hh]), List.foldl_cons]
      refine ⟨by rw [ihr.1, updateContent_length], ?_⟩
      rw [ihr.2]
      have hca : contentAt { s with messages := updateContent s.messages i e } i
          = smartConcat (contentAt s i) e := by
        unfold contentAt
        rw [updateContent_getElem? s.messages i e _ hm, hm]
        rfl
      rw [hca]

/-- C2: for any finite sequence of data events delivered on the open
connection (none of them the `[DONE]` sentinel, which would close it), the
placeholder content — initially empty — afterwards equals the left fold of
`smartConcat` over exactly the payloads that are not the sentinel, not
`ping`, not `keepalive` and not empty, in delivery order. -/
theorem stream_content_is_fold (s : ChatState) (cid i : Nat)
    (c : EventSource) (evs : List (List Char))
    (hfind : findConn s.conns cid = some c) (hopen : c.isOpen = true)
    (hmi : c.messageIndex = (i : Int)) (hi : i < s.messages.length)
    (hinit : contentAt s i = []) (hnd : donePayload ∉ evs) :
    contentAt (run s (evs.map (Ev.data cid))) i =
      (evs.filter fun d =>
        !(d = donePayload || isHeartbeatOrEmpty d)).foldl smartConcat [] := by
  have hfe : (evs.filter fun d => !(d = donePayload || isHeartbeatOrEmpty d))
      = evs.filter fun d => !isHeartbeatOrEmpty d := by
    apply List.filter_congr
    intro d hd
    have : d ≠ donePayload := fun hcon => hnd (hcon ▸ hd)
    simp [this]
  rw [hfe, ← hinit]
  exact (run_data_fold evs s cid i c hfind hopen hmi hi hnd).2

/-- Witness for C2: two word chunks and a heartbeat on the concrete
mid-stream state fold to the space-joined concatenation. -/
theorem stream_content_is_fold_witness :
    contentAt (run sampleOpenState
        (["Hel".toList, "ping".toList, "lo!".toList].map (Ev.data 0))) 1 =
      (["Hel".toList, "ping".toList, "lo!".toList].filter fun d =>
        !(d = donePayload || isHeartbeatOrEmpty d)).foldl smartConcat [] :=
  stream_content_is_fold sampleOpenState 0 1 ⟨0, true, 1⟩
    ["Hel".toList, "ping".toList, "lo!".toList]
    (by decide) (by decide) (by decide) (by decide) (by decide) (by decide)

theorem closeStream_conns_length (s : ChatState) :
    (closeStream s).conns.length = s.conns.length := by
  cases hs : s.evtSource <;> simp [closeStream, hs, closeConn]

theorem openStream_eq (s : ChatState) (idx : Int) :
    openStream s idx =
      { closeStream { s with loading := true } with
        conns := (closeStream { s with loading := true }).conns ++
          [⟨s.nextId, true, idx⟩],
        evtSource := some s.nextId,
        nextId := s.nextId + 1 } := by
  cases hs : s.evtSource <;> simp [openStream, closeStream, hs]

/-- C4: in every reachable state at most one connection is open; after any
`openStream` call the fresh connection is referenced by `evtSource`, it is
the unique open connection, and a data event addressed to any other
connection leaves the state (hence the placeholder) unchanged. -/
theorem at_most_one_open_stream (s : ChatState) (h : Reachable s) :
    (∀ c1 ∈ s.conns, ∀ c2 ∈ s.conns, c1.isOpen = true → c2.isOpen = true →
      c1 = c2) ∧
    ∀ idx : Int,
      (openStream s idx).evtSource = some s.nextId ∧
      (∃ c ∈ (openStream s idx).conns, c.id = s.nextId ∧ c.isOpen = true ∧
        ∀ c2 ∈ (openStream s idx).conns, c2.isOpen = true → c2 = c) ∧
      ∀ cid payload, cid ≠ s.nextId →
        step (openStream s idx) (Ev.data cid payload) = openStream s idx := by
  obtain ⟨h1, h2, h3⟩ := reachable_connInv s h
  constructor
  · intro c1 hc1 c2 hc2 ho1 ho2
    have e1 := h1 c1 hc1 ho1
    have e2 := h1 c2 hc2 ho2
    rw [e1] at e2
    exact List.inj_on_of_nodup_map h2 hc1 hc2 (Option.some_inj.mp e2)
  · intro idx
    have hclosed : ∀ c ∈ (closeStream { s with loading := true }).conns,
        c.isOpen = false :=
      allClosed_closeStream { s with loading := true } h1
    refine ⟨by rw [openStream_eq], ?_, ?_⟩
    · refine ⟨⟨s.nextId, true, idx⟩, ?_, rfl, rfl, ?_⟩
      · rw [openStream_eq]
        exact List.mem_append_right _ (List.mem_singleton_self _)
      · intro c2 hc2 ho2
        rw [openStream_eq] at hc2
        rcases List.mem_append.mp hc2 with hc2 | hc2
        · rw [hclosed c2 hc2] at ho2
          exact Bool.noConfusion ho2
        · exact List.mem_singleton.mp hc2
    · intro cid payload hcid
      cases hf : findConn (openStream s idx).conns cid with
      | none => simp [step, hf]
      | some c =>
        have hcm := findConn_mem hf
        have hid := findConn_id hf
        rw [openStream_eq] at hcm
        rcases List.mem_append.mp hcm with hcm | hcm
        · simp [step, hf, hclosed c hcm]
        · rw [List.mem_singleton.mp hcm] at hid
          exact absurd hid.symm hcid

/-- Witness for C4 at the initial state. -/
theorem at_most_one_open_stream_witness :
    (∀ c1 ∈ (initState 3).conns, ∀ c2 ∈ (initState 3).conns,
      c1.isOpen = true → c2.isOpen = true → c1 = c2) ∧
    ∀ idx : Int,
      (openStream (initState 3) idx).evtSource = some (initState 3).nextId ∧
      (∃ c ∈ (openStream (initState 3) idx).conns,
        c.id = (initState 3).nextId ∧ c.isOpen = true ∧
        ∀ c2 ∈ (openStream (initState 3) idx).conns,
          c2.isOpen = true → c2 = c) ∧
      ∀ cid payload, cid ≠ (initState 3).nextId →
        step (openStream (initState 3) idx) (Ev.data cid payload) =
          openStream (initState 3) idx :=
  at_most_one_open_stream (initState 3) (Reachable.init 3)

/-- C5: `closeStream` is total and idempotent, always clears the busy flag,
always nulls `evtSource`, closes the referenced connection when one is
present, and is invoked verbatim by the `[DONE]` branch of `onmessage`, by
the `onerror` handler of a live connection, and by component teardown. -/
theorem closeStream_release (s : ChatState) :
    closeStream (closeStream s) = closeStream s ∧
    (closeStream s).loading = false ∧
    (closeStream s).evtSource = none ∧
    (∀ i, s.evtSource = some i →
      ∀ c ∈ (closeStream s).conns, c.id = i → c.isOpen = false) ∧
    (∀ c, onMessage s c donePayload = closeStream s) ∧
    (∀ cid c, findConn s.conns cid = some c → c.isOpen = true →
      step s (Ev.error cid) = closeStream s) ∧
    (∀ store now, (onUnmounted s store now).1 = closeStream s) := by
  refine ⟨?_, ?_, ?_, ?_, ?_, ?_, ?_⟩
  · cases hs : s.evtSource <;> simp [closeStream, hs]
  · cases hs : s.evtSource <;> simp [closeStream, hs]
  · cases hs : s.evtSource <;> simp [closeStream, hs]
  · intro i hi c hc hcid
    simp only [closeStream, hi] at hc
    rcases mem_closeConn hc with ⟨c0, hc0, rfl⟩
    by_cases hid : c0.id = i
    · rw [if_pos hid]
    · rw [if_neg hid] at hcid
      exact absurd hcid hid
  · intro c
    simp [onMessage]
  · intro cid c hf ho
    simp [step, hf, ho]
  · intro store now
    rfl

/-- Witness for C5 at the concrete mid-stream state. -/
theorem closeStream_release_witness :
    closeStream (closeStream sampleOpenState) = closeStream sampleOpenState ∧
    (closeStream sampleOpenState).loading = false ∧
    (closeStream sampleOpenState).evtSource = none ∧
    (∀ i, sampleOpenState.evtSource = some i →
      ∀ c ∈ (closeStream sampleOpenState).conns, c.id = i →
        c.isOpen = false) ∧
    (∀ c, onMessage sampleOpenState c donePayload =
      closeStream sampleOpenState) ∧
    (∀ cid c, findConn sampleOpenState.conns cid = some c →
      c.isOpen = true →
      step sampleOpenState (Ev.error cid) = closeStream sampleOpenState) ∧
    (∀ store now, (onUnmounted sampleOpenState store now).1 =
      closeStream sampleOpenState) :=
  closeStream_release sampleOpenState

/-- C6 counterexample: at a concrete state whose stream is still open,
`openStream` is not a no-op — the state changes and a new connection is
created. -/
theorem openStream_not_noop :
    sampleOpenState.evtSource = some 0 ∧
    openStream sampleOpenState 1 ≠ sampleOpenState ∧
    (openStream sampleOpenState 1).conns.length =
      sampleOpenState.conns.length + 1 := by decide

/-- C6 amended: `openStream` while a prior stream is open does not fail fast;
it first closes the prior connection and then opens exactly one fresh
connection, which becomes the only open one. -/
theorem openStream_replaces_connection (s : ChatState) (hinv : ConnInv s)
    (idx : Int) :
    (openStream s idx).evtSource = some s.nextId ∧
    (openStream s idx).conns.length = s.conns.length + 1 ∧
    ∀ c ∈ (openStream s idx).conns, c.isOpen = true → c.id = s.nextId := by
  have hclosed := allClosed_closeStream { s with loading := true } hinv.1
  refine ⟨by rw [openStream_eq], ?_, ?_⟩
  · rw [openStream_eq]
    simp [closeStream_conns_length]
  · intro c hc ho
    rw [openStream_eq] at hc
    rcases List.mem_append.mp hc with hc | hc
    · rw [hclosed c hc] at ho
      exact Bool.noConfusion ho
    · rw [List.mem_singleton.mp hc]

/-- Witness for the amended C6 at the concrete mid-stream state. -/
theorem openStream_replaces_connection_witness :
    (openStream sampleOpenState 1).evtSource = some sampleOpenState.nextId ∧
    (openStream sampleOpenState 1).conns.length =
      sampleOpenState.conns.length + 1 ∧
    ∀ c ∈ (openStream sampleOpenState 1).conns, c.isOpen = true →
      c.id = sampleOpenState.nextId :=
  openStream_replaces_connection sampleOpenState (by unfold ConnInv; decide) 1

/-- C7: at a concrete idle state with text typed in, `onSend` appends the
user message and the empty assistant placeholder and clears the input as
claimed, and is a no-op on whitespace-only input or when busy — but it
leaves the busy flag `false`, because `openStream` sets `loading` to true
and then calls `closeStream()`, which unconditionally resets it. -/
theorem onSend_busy_flag_divergence :
    (onSend sampleIdleState).messages =
      [welcomeMessage, ⟨Role.user, "hi".toList⟩, ⟨Role.assistant, []⟩] ∧
    (onSend sampleIdleState).inputText = [] ∧
    (onSend sampleIdleState).loading = false ∧
    onSend { sampleIdleState with inputText := "  ".toList } =
      { sampleIdleState with inputText := "  ".toList } ∧
    onSend { sampleIdleState with loading := true } =
      { sampleIdleState with loading := true } := by decide

/-- C8: a completed save followed by a load for the same session id succeeds
and restores exactly the saved message list (same roles and contents in the
same order). -/
theorem save_then_load_roundtrip (s s2 : ChatState) (store : Store)
    (now : Nat) :
    (loadMessages s2 (saveMessages s store now) s.memoryId).2 = true ∧
    (loadMessages s2 (saveMessages s store now) s.memoryId).1.messages =
      s.messages := by
  simp [loadMessages, saveMessages, setChat]

/-- C10: a data event delivered to a connection that captured an
out-of-bounds placeholder index (negative, or at least the message-list
length) leaves the message list entirely unchanged. -/
theorem oob_index_no_mutation (s : ChatState) (cid : Nat) (c : EventSource)
    (payload : List Char) (hfind : findConn s.conns cid = some c)
    (hoob : c.messageIndex < 0 ∨
      (s.messages.length : Int) ≤ c.messageIndex) :
    (step s (Ev.data cid payload)).messages = s.messages := by
  by_cases ho : c.isOpen = true
  · have hstep : step s (Ev.data cid payload) = onMessage s c payload := by
      simp [step, hfind, ho]
    rw [hstep]
    unfold onMessage
    split
    · exact closeStream_messages s
    split
    · rfl
    split
    · rename_i hg
      rcases hoob with hx | hx <;> rcases hg with ⟨hg1, hg2⟩ <;> omega
    · rfl
  · simp [step, hfind, ho]

/-- Witness for C10 at the concrete out-of-bounds state. -/
theorem oob_index_no_mutation_witness :
    (step sampleOobState (Ev.data 0 "abc".toList)).messages =
      sampleOobState.messages :=
  oob_index_no_mutation sampleOobState 0 ⟨0, true, 5⟩ "abc".toList
    (by decide) (Or.inr (by decide))

theorem insertByTimestampDesc_ne_nil (e : SessionEntry)
    (l : List SessionEntry) : insertByTimestampDesc e l ≠ [] := by
  cases l with
  | nil => simp [insertByTimestampDesc]
  | cons x xs =>
    simp only [insertByTimestampDesc]
    split <;> simp

theorem mem_insertByTimestampDesc {a : SessionEntry} (e : SessionEntry)
    (l : List SessionEntry) :
    a ∈ insertByTimestampDesc e l ↔ a = e ∨ a ∈ l := by
  induction l with
  | nil => simp [insertByTimestampDesc]
  | cons x xs ih =>
    simp only [insertByTimestampDesc]
    split
    · simp only [List.mem_cons, ih]
      tauto
    · simp

theorem mem_sortSessions (a : SessionEntry) (l : List SessionEntry) :
    a ∈ sortSessions l ↔ a ∈ l := by
  induction l with
  | nil => simp [sortSessions]
  | cons x xs ih =>
    show a ∈ insertByTimestampDesc x (sortSessions xs) ↔ _
    rw [mem_insertByTimestampDesc, ih]
    simp

theorem head_insertByTimestampDesc (e : SessionEntry)
    (l : List SessionEntry) :
    (insertByTimestampDesc e l).head? = some e ∨
    (insertByTimestampDesc e l).head? = l.head? := by
  cases l with
  | nil => left; rfl
  | cons x xs =>
    simp only [insertByTimestampDesc]
    split
    · right; rfl
    · left; rfl

theorem sortedDesc_insert (e : SessionEntry) (l : List SessionEntry)
    (h : SortedDesc l) : SortedDesc (insertByTimestampDesc e l) := by
  induction l with
  | nil => simp [insertByTimestampDesc, SortedDesc]
  | cons x xs ih =>
    simp only [insertByTimestampDesc]
    split
    · rename_i hle
      have hxs : SortedDesc xs := (List.chain'_cons'.mp h).2
      refine List.chain'_cons'.mpr ⟨?_, ih hxs⟩
      intro y hy
      rcases head_insertByTimestampDesc e xs with h1 | h1
      · rw [h1] at hy
        simp only [Option.mem_def, Option.some_inj] at hy
        rw [← hy]
        exact hle
      · rw [h1] at hy
        exact (List.chain'_cons'.mp h).1 y hy
    · rename_i hgt
      refine List.chain'_cons'.mpr ⟨?_, h⟩
      intro y hy
      simp only [List.head?_cons, Option.mem_def, Option.some_inj] at hy
      rw [← hy]
      omega

theorem sortedDesc_sortSessions (l : List SessionEntry) :
    SortedDesc (sortSessions l) := by
  induction l with
  | nil => simp [sortSessions, SortedDesc]
  | cons x xs ih => exact sortedDesc_insert x (sortSessions xs) ih

theorem head_max_of_sortedDesc (l : List SessionEntry) :
    SortedDesc l → ∀ e, l.head? = some e →
      ∀ x ∈ l, x.timestamp ≤ e.timestamp := by
  induction l with
  | nil =>
    intro _ e he
    cases he
  | cons a t ih =>
    intro h e he x hx
    have ha : a = e := by simpa using he
    subst ha
    rcases List.mem_cons.mp hx with rfl | hx
    · exact Nat.le_refl _
    · cases t with
      | nil => exact absurd hx (List.not_mem_nil x)
      | cons b t2 =>
        have hab : b.timestamp ≤ a.timestamp := (List.chain'_cons.mp h).1
        have ht : SortedDesc (b :: t2) := (List.chain'_cons.mp h).2
        exact Nat.le_trans (ih ht b rfl x hx) hab

theorem loadMessages_fst_of_fail (s : ChatState) (store : Store) (sid : Nat)
    (h : (loadMessages s store sid).2 = false) :
    (loadMessages s store sid).1 = s := by
  unfold loadMessages
  cases hsc : store.chat sid with
  | none => rfl
  | some r =>
    cases r with
    | malformed => rfl
    | valid m mid t => simp [loadMessages, hsc] at h

theorem onMounted_of_head (s : ChatState) (store : Store) (e : SessionEntry)
    (hne : store.sessions.getD [] ≠ [])
    (he : (sortSessions (store.sessions.getD [])).head? = some e) :
    onMounted s store =
      if (loadMessages s store e.id).2 then (loadMessages s store e.id).1
      else { (loadMessages s store e.id).1 with
        messages := (loadMessages s store e.id).1.messages ++
          [welcomeMessage] } := by
  unfold onMounted
  rw [if_neg (by simp [hne])]
  rw [he]

/-- C9: on startup with a non-empty session index the controller loads the
session whose index entry has the greatest timestamp; with an empty or
absent index, or when that load fails (record absent or malformed), the
message list ends up as exactly the single default welcome message. -/
theorem startup_loads_most_recent (s : ChatState) (store : Store)
    (hmsgs : s.messages = []) :
    (store.sessions.getD [] = [] →
      (onMounted s store).messages = [welcomeMessage]) ∧
    (store.sessions.getD [] ≠ [] →
      ∃ e ∈ store.sessions.getD [],
        (∀ x ∈ store.sessions.getD [], x.timestamp ≤ e.timestamp) ∧
        ((loadMessages s store e.id).2 = true →
          onMounted s store = (loadMessages s store e.id).1) ∧
        ((loadMessages s store e.id).2 = false →
          (onMounted s store).messages = [welcomeMessage])) := by
  constructor
  · intro hemp
    unfold onMounted
    rw [if_pos (by simp [hemp])]
    rw [hmsgs]
    rfl
  · intro hne
    have hsne : sortSessions (store.sessions.getD []) ≠ [] := by
      cases hl : store.sessions.getD [] with
      | nil => exact absurd hl hne
      | cons x xs =>
        show insertByTimestampDesc x (sortSessions xs) ≠ []
        exact insertByTimestampDesc_ne_nil x _
    obtain ⟨e, he⟩ :
        ∃ e, (sortSessions (store.sessions.getD [])).head? = some e := by
      cases hh : (sortSessions (store.sessions.getD [])).head? with
      | none => exact absurd (List.head?_eq_none_iff.mp hh) hsne
      | some e => exact ⟨e, rfl⟩
    have hmem : e ∈ store.sessions.getD [] := by
      have : e ∈ sortSessions (store.sessions.getD []) := by
        cases hl : sortSessions (store.sessions.getD []) with
        | nil => exact absurd hl hsne
        | cons x xs =>
          rw [hl] at he
          simp only [List.head?_cons, Option.some_inj] at he
          rw [← he]
          exact List.mem_cons_self x xs
      exact (mem_sortSessions e _).mp this
    refine ⟨e, hmem, ?_, ?_, ?_⟩
    · intro x hx
      exact head_max_of_sortedDesc _ (sortedDesc_sortSessions _) e he x
        ((mem_sortSessions x _).mpr hx)
    · intro hok
      rw [onMounted_of_head s store e hne he, if_pos hok]
    · intro hfail
      rw [onMounted_of_head s store e hne he, if_neg (by simp [hfail])]
      have h1 := loadMessages_fst_of_fail s store e.id hfail
      simp [h1, hmsgs]

/-- Witness for C9 at a concrete empty controller and a concrete store whose
most recent session (timestamp 20) has a valid record. -/
theorem startup_loads_most_recent_witness :
    (sampleStore.sessions.getD [] = [] →
      (onMounted (initState 1) sampleStore).messages = [welcomeMessage]) ∧
    (sampleStore.sessions.getD [] ≠ [] →
      ∃ e ∈ sampleStore.sessions.getD [],
        (∀ x ∈ sampleStore.sessions.getD [], x.timestamp ≤ e.timestamp) ∧
        ((loadMessages (initState 1) sampleStore e.id).2 = true →
          onMounted (initState 1) sampleStore =
            (loadMessages (initState 1) sampleStore e.id).1) ∧
        ((loadMessages (initState 1) sampleStore e.id).2 = false →
          (onMounted (initState 1) sampleStore).messages =
            [welcomeMessage])) :=
  startup_loads_most_recent (initState 1) sampleStore rfl

end StudyBuddy
